import Mathlib

/-!
Verification of the holdings/transactions projection engine of `port-ui`.

Shallow embedding of the in-memory storage engine of `src/server/storage.ts`
(class `MemStorage`): the transaction ledger, the holdings projection updated
by `createTransaction` / `updateHoldingFromTransaction`, and the metrics
calculators `getHoldingsWithMetrics` / `getPortfolioWithMetrics`.

Modelling decisions:
* Decimal strings (`quantity`, `price`, `averageCost`, `currentPrice`,
  `totalAmount`, `fees`) are embedded as exact rationals (`ℚ`).  The source
  computes with JavaScript doubles via `parseFloat`; the binary-float gap is
  outside this embedding (see the development's treatment of the numerical
  claim).  Rational division is total with `x / 0 = 0`.
* JavaScript `Map`s keyed by `randomUUID()` are embedded as insertion-ordered
  lists together with a fresh-id counter `nextId`: `Map.set` on a fresh key
  appends, `Map.set` on an existing key replaces in place, `Map.delete`
  filters the key out, `Map.get` / the first element of a filtered
  `Array.from(map.values())` is a `List.find?` / `List.head?`.
* Timestamp fields (`lastUpdated`, `createdAt`, `date`) carry no information
  used by any projection or metrics computation and are omitted.
* A `Portfolio` is represented by its id only: `getPortfolioWithMetrics`
  reads no other portfolio field when computing metrics.
-/

/-- Transaction type tag; `src/unnamed` schema stores it as free text with
the values `buy`, `sell`, `dividend` (plus further tags that the projection
engine treats exactly like `dividend`: they fall through every branch of
`updateHoldingFromTransaction`).  `other` stands for all those tags. -/
inductive TxType where
  | buy
  | sell
  | dividend
  | other
deriving DecidableEq, Repr

/-- A holding row (`holdings` table of `src/unnamed/part_006`,
`Holding` of `storage.ts`). -/
structure Holding where
  id : Nat
  portfolioId : String
  symbol : String
  companyName : String
  exchange : String
  currency : String
  quantity : ℚ
  averageCost : ℚ
  currentPrice : Option ℚ
deriving DecidableEq, Repr

/-- A ledger transaction row (`transactions` table). -/
structure Transaction where
  id : Nat
  portfolioId : String
  symbol : String
  type : TxType
  quantity : ℚ
  price : ℚ
  totalAmount : ℚ
  fees : ℚ
  currency : String
  exchange : String
deriving DecidableEq, Repr

/-- `InsertHolding` (the `insertHoldingSchema` shape: a holding without
`id`, `currentPrice`, `lastUpdated`). -/
structure InsertHolding where
  portfolioId : String
  symbol : String
  companyName : String
  exchange : String
  currency : String
  quantity : ℚ
  averageCost : ℚ
deriving DecidableEq, Repr

/-- `InsertTransaction` (the `insertTransactionSchema` shape: a transaction
without `id`, `createdAt`; `fees` is optional, defaulted by
`createTransaction`). -/
structure InsertTransaction where
  portfolioId : String
  symbol : String
  type : TxType
  quantity : ℚ
  price : ℚ
  totalAmount : ℚ
  fees : Option ℚ
  currency : String
  exchange : String
deriving DecidableEq, Repr

/-- The state of `MemStorage`: the portfolios (by id), the holdings map, the
transactions map, and the fresh-id source standing in for `randomUUID()`. -/
structure MemStorage where
  portfolios : List String
  holdings : List Holding
  transactions : List Transaction
  nextId : Nat
deriving DecidableEq, Repr

namespace MemStorage

/-- `this.holdings.set(h.id, h)` — JavaScript `Map.set`: replace in place
when the key is present, append otherwise. -/
def setHoldingById (hs : List Holding) (h : Holding) : List Holding :=
  if hs.any (fun x => x.id == h.id) then
    hs.map (fun x => if x.id == h.id then h else x)
  else
    hs ++ [h]

/-- `this.transactions.set(t.id, t)`. -/
def setTransactionById (ts : List Transaction) (t : Transaction) : List Transaction :=
  if ts.any (fun x => x.id == t.id) then
    ts.map (fun x => if x.id == t.id then t else x)
  else
    ts ++ [t]

/-- `createHolding` (storage.ts:339): build the holding with a fresh id,
`currentPrice: null`, and store it. -/
def createHolding (s : MemStorage) (ih : InsertHolding) : MemStorage × Holding :=
  let h : Holding :=
    { id := s.nextId
      portfolioId := ih.portfolioId
      symbol := ih.symbol
      companyName := ih.companyName
      exchange := ih.exchange
      currency := ih.currency
      quantity := ih.quantity
      averageCost := ih.averageCost
      currentPrice := none }
  ({ s with holdings := setHoldingById s.holdings h, nextId := s.nextId + 1 }, h)

/-- `updateHolding` (storage.ts:350): look the holding up by id; if present,
merge the update over it and store the result.  Both call sites in
`updateHoldingFromTransaction` pass every `InsertHolding` field (the spread
`{...holdingUpdate, ...}` of the holding minus `id`, `currentPrice`,
`lastUpdated`), so the update argument is a full `InsertHolding`; `id` and
`currentPrice` are kept from the stored holding. -/
def updateHolding (s : MemStorage) (hid : Nat) (u : InsertHolding) :
    MemStorage × Option Holding :=
  match s.holdings.find? (fun h => h.id == hid) with
  | none => (s, none)
  | some h =>
      let updated : Holding :=
        { id := h.id
          portfolioId := u.portfolioId
          symbol := u.symbol
          companyName := u.companyName
          exchange := u.exchange
          currency := u.currency
          quantity := u.quantity
          averageCost := u.averageCost
          currentPrice := h.currentPrice }
      ({ s with holdings := setHoldingById s.holdings updated }, some updated)

/-- `deleteHolding` (storage.ts:359): `this.holdings.delete(id)`. -/
def deleteHolding (s : MemStorage) (hid : Nat) : MemStorage × Bool :=
  ({ s with holdings := s.holdings.filter (fun h => !(h.id == hid)) },
   s.holdings.any (fun h => h.id == hid))

/-- The holdings of one `(portfolioId, symbol)` pair, in insertion order —
the filter at the top of `updateHoldingFromTransaction` (storage.ts:420). -/
def holdingsFor (s : MemStorage) (pid sym : String) : List Holding :=
  s.holdings.filter (fun h => h.portfolioId == pid && h.symbol == sym)

/-- `updateHoldingFromTransaction` (storage.ts:419): apply one transaction
to the holdings projection.  `holdings[0]` is the head of the filtered
list; `buy` updates the existing holding with the weighted-average cost or
creates a new one, `sell` decrements the quantity and deletes the holding
when the result is `≤ 0`; every other type leaves the holdings untouched. -/
def updateHoldingFromTransaction (s : MemStorage) (t : Transaction) : MemStorage :=
  let holding? := (holdingsFor s t.portfolioId t.symbol).head?
  if t.type = TxType.buy then
    match holding? with
    | some holding =>
        let newQuantity := holding.quantity + t.quantity
        let newAverageCost :=
          (holding.quantity * holding.averageCost + t.quantity * t.price) / newQuantity
        (updateHolding s holding.id
          { portfolioId := holding.portfolioId
            symbol := holding.symbol
            companyName := holding.companyName
            exchange := holding.exchange
            currency := holding.currency
            quantity := newQuantity
            averageCost := newAverageCost }).1
    | none =>
        (createHolding s
          { portfolioId := t.portfolioId
            symbol := t.symbol
            companyName := t.symbol
            exchange := t.exchange
            currency := t.currency
            quantity := t.quantity
            averageCost := t.price }).1
  else if t.type = TxType.sell then
    match holding? with
    | some holding =>
        let newQuantity := holding.quantity - t.quantity
        if newQuantity ≤ 0 then
          (deleteHolding s holding.id).1
        else
          (updateHolding s holding.id
            { portfolioId := holding.portfolioId
              symbol := holding.symbol
              companyName := holding.companyName
              exchange := holding.exchange
              currency := holding.currency
              quantity := newQuantity
              averageCost := holding.averageCost }).1
    | none => s
  else
    s

/-- `createTransaction` (storage.ts:399): build the transaction with a fresh
id and defaulted fees, record it in the ledger, then update the holdings
projection.  The source has no failure path: the function is total and
always returns the recorded transaction. -/
def createTransaction (s : MemStorage) (it : InsertTransaction) :
    MemStorage × Transaction :=
  let t : Transaction :=
    { id := s.nextId
      portfolioId := it.portfolioId
      symbol := it.symbol
      type := it.type
      quantity := it.quantity
      price := it.price
      totalAmount := it.totalAmount
      fees := it.fees.getD 0
      currency := it.currency
      exchange := it.exchange }
  let s1 : MemStorage :=
    { s with transactions := setTransactionById s.transactions t
             nextId := s.nextId + 1 }
  (updateHoldingFromTransaction s1 t, t)

/-- A sequence of `createTransaction` calls, oldest first. -/
def applyTransactions (s : MemStorage) (l : List InsertTransaction) : MemStorage :=
  l.foldl (fun s it => (createTransaction s it).1) s

/-- The per-holding metrics of `getHoldingsWithMetrics` (storage.ts:363). -/
structure HoldingMetrics where
  currentValue : ℚ
  totalGain : ℚ
  totalGainPercent : ℚ
deriving DecidableEq, Repr

/-- The metric fields computed for one holding inside
`getHoldingsWithMetrics` (storage.ts:366–374): `parseFloat(currentPrice ||
"0")` reads an absent price as `0`; the gain percent is guarded by
`totalCost > 0`. -/
def holdingMetrics (h : Holding) : HoldingMetrics :=
  let currentPrice := h.currentPrice.getD 0
  let currentValue := currentPrice * h.quantity
  let totalCost := h.averageCost * h.quantity
  let totalGain := currentValue - totalCost
  let totalGainPercent := if totalCost > 0 then totalGain / totalCost * 100 else 0
  { currentValue := currentValue
    totalGain := totalGain
    totalGainPercent := totalGainPercent }

/-- `getHoldingsWithMetrics` (storage.ts:363): each holding of the portfolio
paired with its computed metrics. -/
def getHoldingsWithMetrics (s : MemStorage) (pid : String) :
    List (Holding × HoldingMetrics) :=
  (s.holdings.filter (fun h => h.portfolioId == pid)).map (fun h => (h, holdingMetrics h))

/-- The metric fields of `PortfolioWithMetrics`. -/
structure PortfolioMetrics where
  totalValue : ℚ
  totalGain : ℚ
  totalGainPercent : ℚ
  dividendYield : ℚ
  holdingsCount : Nat
deriving DecidableEq, Repr

/-- `getPortfolioWithMetrics` (storage.ts:292): `undefined` when the
portfolio does not exist; otherwise the running sums over the portfolio's
holdings and the dividend aggregation over its transactions, with the
`totalCost > 0` and `totalValue > 0` guards of storage.ts:313 and 318. -/
def getPortfolioWithMetrics (s : MemStorage) (pid : String) : Option PortfolioMetrics :=
  if s.portfolios.contains pid then
    let holdings := s.holdings.filter (fun h => h.portfolioId == pid)
    let transactions := s.transactions.filter (fun t => t.portfolioId == pid)
    let totalValue :=
      holdings.foldl (fun acc h => acc + (h.currentPrice.getD 0) * h.quantity) (0 : ℚ)
    let totalCost :=
      holdings.foldl (fun acc h => acc + h.averageCost * h.quantity) (0 : ℚ)
    let totalGain := totalValue - totalCost
    let totalGainPercent := if totalCost > 0 then totalGain / totalCost * 100 else 0
    let annualDividends :=
      (transactions.filter (fun t => t.type == TxType.dividend)).foldl
        (fun acc t => acc + t.totalAmount) (0 : ℚ)
    let dividendYield := if totalValue > 0 then annualDividends / totalValue * 100 else 0
    some
      { totalValue := totalValue
        totalGain := totalGain
        totalGainPercent := totalGainPercent
        dividendYield := dividendYield
        holdingsCount := holdings.length }
  else
    none

/-- Well-formedness of the id discipline that `randomUUID()` provides in the
source: holding ids are pairwise distinct, and every stored id is below the
fresh-id counter. -/
def WF (s : MemStorage) : Prop :=
  (s.holdings.map Holding.id).Nodup ∧
  (∀ h ∈ s.holdings, h.id < s.nextId) ∧
  (∀ t ∈ s.transactions, t.id < s.nextId)

/-- The per-pair uniqueness invariant of the spec: at most one holding per
`(portfolioId, symbol)`. -/
def UniqueHoldings (s : MemStorage) : Prop :=
  ∀ pid sym : String, (holdingsFor s pid sym).length ≤ 1

/-- The holding produced by the `buy`-with-existing-holding branch of
`updateHoldingFromTransaction` for an existing holding `h`, transacted
quantity `q` and price `p`. -/
def buyUpdated (h : Holding) (q p : ℚ) : Holding :=
  { id := h.id
    portfolioId := h.portfolioId
    symbol := h.symbol
    companyName := h.companyName
    exchange := h.exchange
    currency := h.currency
    quantity := h.quantity + q
    averageCost := (h.quantity * h.averageCost + q * p) / (h.quantity + q)
    currentPrice := h.currentPrice }

/-- The holding produced by the `sell`-with-remainder branch of
`updateHoldingFromTransaction`. -/
def sellUpdated (h : Holding) (q : ℚ) : Holding :=
  { id := h.id
    portfolioId := h.portfolioId
    symbol := h.symbol
    companyName := h.companyName
    exchange := h.exchange
    currency := h.currency
    quantity := h.quantity - q
    averageCost := h.averageCost
    currentPrice := h.currentPrice }

/-- The holding produced by the `buy`-with-no-existing-holding branch
(`createHolding` with `companyName` defaulted to the symbol and
`currentPrice` unset). -/
def freshBuyHolding (n : Nat) (it : InsertTransaction) : Holding :=
  { id := n
    portfolioId := it.portfolioId
    symbol := it.symbol
    companyName := it.symbol
    exchange := it.exchange
    currency := it.currency
    quantity := it.quantity
    averageCost := it.price
    currentPrice := none }

/-- The transaction record built at the top of `createTransaction`. -/
def newTransaction (n : Nat) (it : InsertTransaction) : Transaction :=
  { id := n
    portfolioId := it.portfolioId
    symbol := it.symbol
    type := it.type
    quantity := it.quantity
    price := it.price
    totalAmount := it.totalAmount
    fees := it.fees.getD 0
    currency := it.currency
    exchange := it.exchange }

/-- A store with one portfolio `"P"` and nothing else, as after a reset. -/
def emptyStore : MemStorage := ⟨["P"], [], [], 0⟩

/-- The buy sequence of the spec's scenario: 50 AAPL @ 150, then 25 @ 180. -/
def c1Buys : List InsertTransaction :=
  [⟨"P", "AAPL", TxType.buy, 50, 150, 7500, some 0, "USD", "NASDAQ"⟩,
   ⟨"P", "AAPL", TxType.buy, 25, 180, 4500, some 0, "USD", "NASDAQ"⟩]

/-- A store with one portfolio `"P"` holding 50 AAPL @ averageCost 150. -/
def oneHoldingStore : MemStorage :=
  ⟨["P"], [⟨0, "P", "AAPL", "Apple Inc.", "NASDAQ", "USD", 50, 150, none⟩], [], 1⟩

/-- The insert-holding payload used twice to break per-pair uniqueness. -/
def dupHolding : InsertHolding := ⟨"P", "AAPL", "Apple Inc.", "NASDAQ", "USD", 50, 150⟩

/-- The holding-metrics formulas as the spec states them (with the guard as
the source implements it: the percentage formula applies when the cost
basis is positive, and the result is 0 otherwise, not only when the cost
basis is exactly 0). -/
def holdingMetricsSpec (h : Holding) : HoldingMetrics :=
  let price := h.currentPrice.getD 0
  let currentValue := price * h.quantity
  let costBasis := h.averageCost * h.quantity
  let totalGain := currentValue - costBasis
  { currentValue := currentValue
    totalGain := totalGain
    totalGainPercent := if 0 < costBasis then totalGain / costBasis * 100 else 0 }

/-- The portfolio-metrics formulas as the spec states them (with the guards
as the source implements them: positive cost and positive total value). -/
def portfolioMetricsSpec (holdings : List Holding) (txs : List Transaction) :
    PortfolioMetrics :=
  let totalValue := (holdings.map (fun h => h.currentPrice.getD 0 * h.quantity)).sum
  let totalCost := (holdings.map (fun h => h.averageCost * h.quantity)).sum
  let totalGain := totalValue - totalCost
  { totalValue := totalValue
    totalGain := totalGain
    totalGainPercent := if 0 < totalCost then totalGain / totalCost * 100 else 0
    dividendYield :=
      if 0 < totalValue then
        ((txs.filter (fun t => t.type == TxType.dividend)).map
          Transaction.totalAmount).sum / totalValue * 100
      else 0
    holdingsCount := holdings.length }

/-- A store whose portfolio has negative total value (one holding with
quantity −5 at currentPrice 10) and one dividend transaction of 100. -/
def negStore : MemStorage :=
  ⟨["P"], [⟨0, "P", "A", "A", "N", "USD", -5, 0, some 10⟩],
   [⟨1, "P", "A", TxType.dividend, 0, 0, 100, 0, "USD", "N"⟩], 2⟩

theorem mem_setHoldingById {hs : List Holding} {h x : Holding}
    (hx : x ∈ setHoldingById hs h) : x = h ∨ x ∈ hs := by
  unfold setHoldingById at hx
  split at hx
  · rcases List.mem_map.mp hx with ⟨y, hy, rfl⟩
    split
    · exact Or.inl rfl
    · exact Or.inr hy
  · rcases List.mem_append.mp hx with hy | hy
    · exact Or.inr hy
    · exact Or.inl (List.mem_singleton.mp hy)

theorem setHoldingById_of_fresh {hs : List Holding} {h : Holding}
    (hfresh : ∀ x ∈ hs, x.id ≠ h.id) : setHoldingById hs h = hs ++ [h] := by
  unfold setHoldingById
  rw [if_neg]
  simp only [List.any_eq_true, beq_iff_eq, not_exists, not_and]
  exact hfresh

theorem setTransactionById_of_fresh {ts : List Transaction} {t : Transaction}
    (hfresh : ∀ x ∈ ts, x.id ≠ t.id) : setTransactionById ts t = ts ++ [t] := by
  unfold setTransactionById
  rw [if_neg]
  simp only [List.any_eq_true, beq_iff_eq, not_exists, not_and]
  exact hfresh

theorem eq_of_id_eq {hs : List Holding} {h x : Holding}
    (hnd : (hs.map Holding.id).Nodup) (hm : h ∈ hs) (hx : x ∈ hs)
    (hid : x.id = h.id) : x = h :=
  List.inj_on_of_nodup_map hnd hx hm hid

theorem find?_id_eq_some {hs : List Holding} {h : Holding}
    (hnd : (hs.map Holding.id).Nodup) (hm : h ∈ hs) :
    hs.find? (fun x => x.id == h.id) = some h := by
  induction hs with
  | nil => cases hm
  | cons a tl ih =>
    rw [List.map_cons] at hnd
    have hnd' := List.nodup_cons.mp hnd
    by_cases hc : (a.id == h.id) = true
    · have ha : a = h := by
        rcases List.mem_cons.mp hm with rfl | hmem
        · rfl
        · exact absurd (beq_iff_eq.mp hc ▸ List.mem_map_of_mem Holding.id hmem) hnd'.1
      subst ha
      exact List.find?_cons_of_pos _ hc
    · have hmem : h ∈ tl := by
        rcases List.mem_cons.mp hm with rfl | hmem
        · exact absurd (beq_iff_eq.mpr rfl) hc
        · exact hmem
      exact (@List.find?_cons_of_neg _ (fun x => x.id == h.id) a tl hc).trans
        (ih hnd'.2 hmem)

theorem map_id_on {α : Type} {l : List α} {f : α → α}
    (h : ∀ x ∈ l, f x = x) : l.map f = l := by
  induction l with
  | nil => rfl
  | cons a tl ih =>
    simp only [List.map_cons]
    rw [h a (List.mem_cons_self a tl), ih fun x hx => h x (List.mem_cons_of_mem a hx)]

theorem filter_replace_singleton :
    ∀ (hs : List Holding) (p : Holding → Bool) (h h' : Holding),
      (hs.map Holding.id).Nodup → hs.filter p = [h] → p h' = true → h'.id = h.id →
      (hs.map fun x => if x.id == h.id then h' else x).filter p = [h'] := by
  intro hs
  induction hs with
  | nil => intro p h h' _ hf _ _; simp at hf
  | cons a tl ih =>
    intro p h h' hnd hf hp' hid
    rw [List.map_cons] at hnd
    have hnd' := List.nodup_cons.mp hnd
    by_cases hpa : p a = true
    · rw [List.filter_cons_of_pos hpa] at hf
      injection hf with h1 h2
      subst h1
      simp only [List.map_cons]
      rw [if_pos (beq_iff_eq.mpr rfl), List.filter_cons_of_pos hp']
      have hrepl : tl.map (fun x => if x.id == a.id then h' else x) = tl :=
        map_id_on fun x hx => by
          rw [if_neg]
          intro hc
          exact hnd'.1 (beq_iff_eq.mp hc ▸ List.mem_map_of_mem Holding.id hx)
      rw [hrepl, h2]
    · rw [List.filter_cons_of_neg hpa] at hf
      have hmem : h ∈ tl :=
        List.mem_of_mem_filter (hf ▸ List.mem_singleton_self h)
      have hane : ¬((a.id == h.id) = true) := by
        intro he
        exact hnd'.1 (beq_iff_eq.mp he ▸ List.mem_map_of_mem Holding.id hmem)
      simp only [List.map_cons]
      rw [if_neg hane, List.filter_cons_of_neg hpa]
      exact ih p h h' hnd'.2 hf hp' hid

theorem length_filter_map_eq {α : Type} :
    ∀ (l : List α) (g : α → α) (q : α → Bool),
      (∀ x ∈ l, q (g x) = q x) →
      ((l.map g).filter q).length = (l.filter q).length := by
  intro l
  induction l with
  | nil => intro g q _; rfl
  | cons a tl ih =>
    intro g q hq
    have hqa := hq a (List.mem_cons_self a tl)
    have htl : ∀ x ∈ tl, q (g x) = q x := fun x hx => hq x (List.mem_cons_of_mem a hx)
    simp only [List.map_cons]
    by_cases hb : q a = true
    · rw [List.filter_cons_of_pos (hqa.trans hb), List.filter_cons_of_pos hb]
      simp [ih g q htl]
    · rw [List.filter_cons_of_neg (fun hc => hb (hqa ▸ hc)),
        List.filter_cons_of_neg hb]
      exact ih g q htl

theorem mem_holdings_of_head? {s : MemStorage} {pid sym : String} {h : Holding}
    (hfound : (holdingsFor s pid sym).head? = some h) :
    h ∈ s.holdings ∧ (h.portfolioId == pid && h.symbol == sym) = true := by
  have hm : h ∈ holdingsFor s pid sym := List.mem_of_mem_head? (by simp [hfound])
  exact List.mem_filter.mp hm

/-- Effect of `createTransaction` on a `buy` that finds an existing holding
(storage.ts:427–442): the found holding is replaced in place by the
weighted-average update; the transaction is appended to the ledger. -/
theorem createTransaction_buy_existing (s : MemStorage) (it : InsertTransaction)
    (h : Holding) (hwf : WF s) (hty : it.type = TxType.buy)
    (hfound : (holdingsFor s it.portfolioId it.symbol).head? = some h) :
    (createTransaction s it).1 =
      { portfolios := s.portfolios
        holdings := s.holdings.map
          (fun x => if x.id == h.id then buyUpdated h it.quantity it.price else x)
        transactions := s.transactions ++ [newTransaction s.nextId it]
        nextId := s.nextId + 1 } := by
  obtain ⟨hnd, hbh, hbt⟩ := hwf
  obtain ⟨hmem, hkey⟩ := mem_holdings_of_head? hfound
  have htx : setTransactionById s.transactions (newTransaction s.nextId it) =
      s.transactions ++ [newTransaction s.nextId it] :=
    setTransactionById_of_fresh fun x hx => Nat.ne_of_lt (hbt x hx)
  show updateHoldingFromTransaction _ _ = _
  unfold updateHoldingFromTransaction
  simp only [newTransaction, holdingsFor] at hfound ⊢
  rw [hty]
  simp only [reduceIte, hfound]
  unfold updateHolding
  rw [find?_id_eq_some hnd hmem]
  simp only [setHoldingById]
  rw [if_pos (show (s.holdings.any fun x => x.id == h.id) = true from
        List.any_eq_true.mpr ⟨h, hmem, by simp⟩)]
  simp only [newTransaction] at htx
  rw [hty] at htx
  rw [htx]
  rfl

/-- Effect of `createTransaction` on a `buy` with no existing holding
(storage.ts:443–454): a fresh holding is appended via `createHolding`; the
transaction is appended to the ledger. -/
theorem createTransaction_buy_fresh (s : MemStorage) (it : InsertTransaction)
    (hwf : WF s) (hty : it.type = TxType.buy)
    (hfresh : holdingsFor s it.portfolioId it.symbol = []) :
    (createTransaction s it).1 =
      { portfolios := s.portfolios
        holdings := s.holdings ++ [freshBuyHolding (s.nextId + 1) it]
        transactions := s.transactions ++ [newTransaction s.nextId it]
        nextId := s.nextId + 2 } := by
  obtain ⟨hnd, hbh, hbt⟩ := hwf
  have htx : setTransactionById s.transactions (newTransaction s.nextId it) =
      s.transactions ++ [newTransaction s.nextId it] :=
    setTransactionById_of_fresh fun x hx => Nat.ne_of_lt (hbt x hx)
  have hset : setHoldingById s.holdings (freshBuyHolding (s.nextId + 1) it) =
      s.holdings ++ [freshBuyHolding (s.nextId + 1) it] :=
    setHoldingById_of_fresh fun x hx => by
      simp only [freshBuyHolding]
      exact Nat.ne_of_lt (Nat.lt_succ_of_lt (hbh x hx))
  show updateHoldingFromTransaction _ _ = _
  unfold updateHoldingFromTransaction
  simp only [newTransaction, holdingsFor] at hfresh htx ⊢
  rw [hty] at htx ⊢
  simp only [reduceIte]
  rw [hfresh]
  unfold createHolding
  simp only [freshBuyHolding] at hset
  simp only [List.head?_nil]
  rw [htx, hset]
  rfl

/-- Effect of `createTransaction` on a `sell` that finds an existing holding
whose resulting quantity is `≤ 0` (storage.ts:460–461): the holding is
deleted; the transaction is appended to the ledger. -/
theorem createTransaction_sell_delete (s : MemStorage) (it : InsertTransaction)
    (h : Holding) (hwf : WF s) (hty : it.type = TxType.sell)
    (hfound : (holdingsFor s it.portfolioId it.symbol).head? = some h)
    (hle : h.quantity - it.quantity ≤ 0) :
    (createTransaction s it).1 =
      { portfolios := s.portfolios
        holdings := s.holdings.filter (fun x => !(x.id == h.id))
        transactions := s.transactions ++ [newTransaction s.nextId it]
        nextId := s.nextId + 1 } := by
  obtain ⟨hnd, hbh, hbt⟩ := hwf
  have htx : setTransactionById s.transactions (newTransaction s.nextId it) =
      s.transactions ++ [newTransaction s.nextId it] :=
    setTransactionById_of_fresh fun x hx => Nat.ne_of_lt (hbt x hx)
  show updateHoldingFromTransaction _ _ = _
  unfold updateHoldingFromTransaction
  simp only [newTransaction, holdingsFor] at hfound htx ⊢
  rw [hty] at htx ⊢
  rw [htx]
  rw [if_neg (show ¬(TxType.sell = TxType.buy) from by decide)]
  rw [if_pos (show TxType.sell = TxType.sell from rfl)]
  simp only [hfound]
  rw [if_pos hle]
  unfold deleteHolding
  rfl

/-- Effect of `createTransaction` on a `sell` that finds an existing holding
with a positive remaining quantity (storage.ts:462–468): the holding's
quantity is decremented in place, all other fields unchanged. -/
theorem createTransaction_sell_update (s : MemStorage) (it : InsertTransaction)
    (h : Holding) (hwf : WF s) (hty : it.type = TxType.sell)
    (hfound : (holdingsFor s it.portfolioId it.symbol).head? = some h)
    (hgt : ¬(h.quantity - it.quantity ≤ 0)) :
    (createTransaction s it).1 =
      { portfolios := s.portfolios
        holdings := s.holdings.map
          (fun x => if x.id == h.id then sellUpdated h it.quantity else x)
        transactions := s.transactions ++ [newTransaction s.nextId it]
        nextId := s.nextId + 1 } := by
  obtain ⟨hnd, hbh, hbt⟩ := hwf
  obtain ⟨hmem, hkey⟩ := mem_holdings_of_head? hfound
  have htx : setTransactionById s.transactions (newTransaction s.nextId it) =
      s.transactions ++ [newTransaction s.nextId it] :=
    setTransactionById_of_fresh fun x hx => Nat.ne_of_lt (hbt x hx)
  show updateHoldingFromTransaction _ _ = _
  unfold updateHoldingFromTransaction
  simp only [newTransaction, holdingsFor] at hfound htx ⊢
  rw [hty] at htx ⊢
  rw [htx]
  rw [if_neg (show ¬(TxType.sell = TxType.buy) from by decide)]
  rw [if_pos (show TxType.sell = TxType.sell from rfl)]
  simp only [hfound]
  rw [if_neg hgt]
  unfold updateHolding
  rw [find?_id_eq_some hnd hmem]
  simp only [setHoldingById]
  rw [if_pos (show (s.holdings.any fun x => x.id == h.id) = true from
        List.any_eq_true.mpr ⟨h, hmem, by simp⟩)]
  rfl

/-- Effect of `createTransaction` on a `sell` with no existing holding
(storage.ts:455 — the `&& holding` guard): the holdings are untouched and
the transaction is still appended to the ledger. -/
theorem createTransaction_sell_missing (s : MemStorage) (it : InsertTransaction)
    (hwf : WF s) (hty : it.type = TxType.sell)
    (hfresh : holdingsFor s it.portfolioId it.symbol = []) :
    (createTransaction s it).1 =
      { portfolios := s.portfolios
        holdings := s.holdings
        transactions := s.transactions ++ [newTransaction s.nextId it]
        nextId := s.nextId + 1 } := by
  obtain ⟨hnd, hbh, hbt⟩ := hwf
  have htx : setTransactionById s.transactions (newTransaction s.nextId it) =
      s.transactions ++ [newTransaction s.nextId it] :=
    setTransactionById_of_fresh fun x hx => Nat.ne_of_lt (hbt x hx)
  show updateHoldingFromTransaction _ _ = _
  unfold updateHoldingFromTransaction
  simp only [newTransaction, holdingsFor] at hfresh htx ⊢
  rw [hty] at htx ⊢
  rw [htx]
  rw [if_neg (show ¬(TxType.sell = TxType.buy) from by decide)]
  rw [if_pos (show TxType.sell = TxType.sell from rfl)]
  rw [hfresh]
  rfl

/-- Effect of `createTransaction` on every transaction type other than `buy`
and `sell` (storage.ts:426/455 conditions both false): the holdings are
untouched and the transaction is appended to the ledger. -/
theorem createTransaction_other (s : MemStorage) (it : InsertTransaction)
    (hwf : WF s) (hb : it.type ≠ TxType.buy) (hs : it.type ≠ TxType.sell) :
    (createTransaction s it).1 =
      { portfolios := s.portfolios
        holdings := s.holdings
        transactions := s.transactions ++ [newTransaction s.nextId it]
        nextId := s.nextId + 1 } := by
  obtain ⟨hnd, hbh, hbt⟩ := hwf
  have htx : setTransactionById s.transactions (newTransaction s.nextId it) =
      s.transactions ++ [newTransaction s.nextId it] :=
    setTransactionById_of_fresh fun x hx => Nat.ne_of_lt (hbt x hx)
  show updateHoldingFromTransaction _ _ = _
  unfold updateHoldingFromTransaction
  simp only [newTransaction] at htx ⊢
  rw [if_neg hb, if_neg hs, htx]

theorem id_of_replace {h h' : Holding} (hid : h'.id = h.id) (x : Holding) :
    (if x.id == h.id then h' else x).id = x.id := by
  split
  · next hc => rw [hid, beq_iff_eq.mp hc]
  · rfl

theorem ids_replace {hs : List Holding} {h h' : Holding} (hid : h'.id = h.id) :
    (hs.map (fun x => if x.id == h.id then h' else x)).map Holding.id =
      hs.map Holding.id := by
  rw [List.map_map]
  exact List.map_congr_left fun x _ => id_of_replace hid x

theorem filter_sub_length {α : Type} :
    ∀ (l : List α) (p q : α → Bool), (∀ a ∈ l, p a = true → q a = true) →
      (l.filter p).length ≤ (l.filter q).length := by
  intro l
  induction l with
  | nil => intro p q _; exact Nat.le_refl 0
  | cons a tl ih =>
    intro p q himp
    have htl := ih p q fun x hx => himp x (List.mem_cons_of_mem a hx)
    by_cases hpa : p a = true
    · rw [List.filter_cons_of_pos hpa,
        List.filter_cons_of_pos (himp a (List.mem_cons_self a tl) hpa)]
      simpa using htl
    · rw [List.filter_cons_of_neg hpa]
      by_cases hqa : q a = true
      · rw [List.filter_cons_of_pos hqa]
        exact Nat.le_succ_of_le htl
      · rw [List.filter_cons_of_neg hqa]
        exact htl

/-- `createTransaction` preserves the id discipline. -/
theorem WF_createTransaction (s : MemStorage) (it : InsertTransaction)
    (hwf : WF s) : WF (createTransaction s it).1 := by
  obtain ⟨hnd, hbh, hbt⟩ := hwf
  by_cases hb : it.type = TxType.buy
  · cases hh : (holdingsFor s it.portfolioId it.symbol).head? with
    | some h =>
        rw [createTransaction_buy_existing s it h ⟨hnd, hbh, hbt⟩ hb hh]
        refine ⟨?_, ?_, ?_⟩
        · show ((s.holdings.map
              (fun x => if x.id == h.id then buyUpdated h it.quantity it.price else x)).map
                Holding.id).Nodup
          rw [@ids_replace s.holdings h (buyUpdated h it.quantity it.price) rfl]
          exact hnd
        · intro x hx
          rcases List.mem_map.mp hx with ⟨y, hy, rfl⟩
          show _ < s.nextId + 1
          rw [@id_of_replace h (buyUpdated h it.quantity it.price) rfl y]
          exact Nat.lt_succ_of_lt (hbh y hy)
        · intro x hx
          rcases List.mem_append.mp hx with hy | hy
          · exact Nat.lt_succ_of_lt (hbt x hy)
          · rw [List.mem_singleton.mp hy]; exact Nat.lt_succ_self _
    | none =>
        have hnil : holdingsFor s it.portfolioId it.symbol = [] := by simpa using hh
        rw [createTransaction_buy_fresh s it ⟨hnd, hbh, hbt⟩ hb hnil]
        refine ⟨?_, ?_, ?_⟩
        · show ((s.holdings ++ [freshBuyHolding (s.nextId + 1) it]).map Holding.id).Nodup
          rw [List.map_append]
          rw [List.nodup_append]
          refine ⟨hnd, List.nodup_singleton _, ?_⟩
          intro n hn hn'
          rcases List.mem_map.mp hn with ⟨y, hy, rfl⟩
          have h1 : y.id < s.nextId := hbh y hy
          have h2 : y.id = s.nextId + 1 := by simpa [freshBuyHolding] using hn'
          omega
        · intro x hx
          show x.id < s.nextId + 2
          rcases List.mem_append.mp hx with hy | hy
          · have := hbh x hy; omega
          · rw [List.mem_singleton.mp hy]
            show s.nextId + 1 < s.nextId + 2
            omega
        · intro x hx
          show x.id < s.nextId + 2
          rcases List.mem_append.mp hx with hy | hy
          · have := hbt x hy; omega
          · rw [List.mem_singleton.mp hy]
            show s.nextId < s.nextId + 2
            omega
  · by_cases hsell : it.type = TxType.sell
    · cases hh : (holdingsFor s it.portfolioId it.symbol).head? with
      | some h =>
          by_cases hd : h.quantity - it.quantity ≤ 0
          · rw [createTransaction_sell_delete s it h ⟨hnd, hbh, hbt⟩ hsell hh hd]
            refine ⟨?_, ?_, ?_⟩
            · exact ((List.filter_sublist s.holdings).map Holding.id).nodup hnd
            · intro x hx
              exact Nat.lt_succ_of_lt (hbh x (List.mem_of_mem_filter hx))
            · intro x hx
              rcases List.mem_append.mp hx with hy | hy
              · exact Nat.lt_succ_of_lt (hbt x hy)
              · rw [List.mem_singleton.mp hy]; exact Nat.lt_succ_self _
          · rw [createTransaction_sell_update s it h ⟨hnd, hbh, hbt⟩ hsell hh hd]
            refine ⟨?_, ?_, ?_⟩
            · show ((s.holdings.map
                  (fun x => if x.id == h.id then sellUpdated h it.quantity else x)).map
                    Holding.id).Nodup
              rw [@ids_replace s.holdings h (sellUpdated h it.quantity) rfl]
              exact hnd
            · intro x hx
              rcases List.mem_map.mp hx with ⟨y, hy, rfl⟩
              show _ < s.nextId + 1
              rw [@id_of_replace h (sellUpdated h it.quantity) rfl y]
              exact Nat.lt_succ_of_lt (hbh y hy)
            · intro x hx
              rcases List.mem_append.mp hx with hy | hy
              · exact Nat.lt_succ_of_lt (hbt x hy)
              · rw [List.mem_singleton.mp hy]; exact Nat.lt_succ_self _
      | none =>
          have hnil : holdingsFor s it.portfolioId it.symbol = [] := by simpa using hh
          rw [createTransaction_sell_missing s it ⟨hnd, hbh, hbt⟩ hsell hnil]
          refine ⟨hnd, ?_, ?_⟩
          · intro x hx; exact Nat.lt_succ_of_lt (hbh x hx)
          · intro x hx
            rcases List.mem_append.mp hx with hy | hy
            · exact Nat.lt_succ_of_lt (hbt x hy)
            · rw [List.mem_singleton.mp hy]; exact Nat.lt_succ_self _
    · rw [createTransaction_other s it ⟨hnd, hbh, hbt⟩ hb hsell]
      refine ⟨hnd, ?_, ?_⟩
      · intro x hx; exact Nat.lt_succ_of_lt (hbh x hx)
      · intro x hx
        rcases List.mem_append.mp hx with hy | hy
        · exact Nat.lt_succ_of_lt (hbt x hy)
        · rw [List.mem_singleton.mp hy]; exact Nat.lt_succ_self _

/-- A pointwise-key-preserving in-place replacement preserves every
per-pair filter length.  `h` is the unique holding carrying its id, and
`h'` agrees with `h` on `(portfolioId, symbol)`. -/
theorem length_filter_replace {s : MemStorage} {h h' : Holding}
    (hnd : (s.holdings.map Holding.id).Nodup) (hmem : h ∈ s.holdings)
    (hpid : h'.portfolioId = h.portfolioId) (hsym : h'.symbol = h.symbol)
    (pid sym : String) :
    ((s.holdings.map (fun x => if x.id == h.id then h' else x)).filter
      (fun x => x.portfolioId == pid && x.symbol == sym)).length =
    ((s.holdings.filter (fun x => x.portfolioId == pid && x.symbol == sym)).length) := by
  apply length_filter_map_eq
  intro x hx
  by_cases hc : (x.id == h.id) = true
  · have hxh : x = h := eq_of_id_eq hnd hmem hx (beq_iff_eq.mp hc)
    subst hxh
    rw [if_pos hc]
    simp [hpid, hsym]
  · rw [if_neg hc]

/-- `createTransaction` preserves the at-most-one-holding-per-pair
invariant. -/
theorem unique_createTransaction (s : MemStorage) (it : InsertTransaction)
    (hwf : WF s) (hu : UniqueHoldings s) :
    UniqueHoldings (createTransaction s it).1 := by
  obtain ⟨hnd, hbh, hbt⟩ := hwf
  intro pid sym
  by_cases hb : it.type = TxType.buy
  · cases hh : (holdingsFor s it.portfolioId it.symbol).head? with
    | some h =>
        rw [createTransaction_buy_existing s it h ⟨hnd, hbh, hbt⟩ hb hh]
        show ((s.holdings.map
            (fun x => if x.id == h.id then buyUpdated h it.quantity it.price else x)).filter
              (fun x => x.portfolioId == pid && x.symbol == sym)).length ≤ 1
        rw [@length_filter_replace s h (buyUpdated h it.quantity it.price) hnd
          (mem_holdings_of_head? hh).1 rfl rfl pid sym]
        exact hu pid sym
    | none =>
        have hnil : holdingsFor s it.portfolioId it.symbol = [] := by simpa using hh
        rw [createTransaction_buy_fresh s it ⟨hnd, hbh, hbt⟩ hb hnil]
        show (((s.holdings ++ [freshBuyHolding (s.nextId + 1) it]).filter
          (fun x => x.portfolioId == pid && x.symbol == sym)).length) ≤ 1
        rw [List.filter_append, List.filter_cons, List.filter_nil]
        by_cases hmatch :
            ((freshBuyHolding (s.nextId + 1) it).portfolioId == pid &&
              (freshBuyHolding (s.nextId + 1) it).symbol == sym) = true
        · have hpid : it.portfolioId = pid := by
            have := (Bool.and_eq_true _ _).mp hmatch
            exact beq_iff_eq.mp this.1
          have hsym : it.symbol = sym := by
            have := (Bool.and_eq_true _ _).mp hmatch
            exact beq_iff_eq.mp this.2
          have hfe : s.holdings.filter
              (fun x => x.portfolioId == pid && x.symbol == sym) = [] := by
            rw [← hpid, ← hsym]
            exact hnil
          rw [if_pos hmatch, hfe]
          simp
        · rw [if_neg hmatch]
          simpa using hu pid sym
  · by_cases hsell : it.type = TxType.sell
    · cases hh : (holdingsFor s it.portfolioId it.symbol).head? with
      | some h =>
          by_cases hd : h.quantity - it.quantity ≤ 0
          · rw [createTransaction_sell_delete s it h ⟨hnd, hbh, hbt⟩ hsell hh hd]
            show (((s.holdings.filter (fun x => !(x.id == h.id))).filter
              (fun x => x.portfolioId == pid && x.symbol == sym)).length) ≤ 1
            calc ((s.holdings.filter (fun x => !(x.id == h.id))).filter
                    (fun x => x.portfolioId == pid && x.symbol == sym)).length
                ≤ ((s.holdings.filter
                    (fun x => x.portfolioId == pid && x.symbol == sym)).length) := by
                  rw [List.filter_filter]
                  exact filter_sub_length s.holdings _ _
                    (fun a _ hpa => ((Bool.and_eq_true _ _).mp hpa).1)
              _ ≤ 1 := hu pid sym
          · rw [createTransaction_sell_update s it h ⟨hnd, hbh, hbt⟩ hsell hh hd]
            show ((s.holdings.map
                (fun x => if x.id == h.id then sellUpdated h it.quantity else x)).filter
                  (fun x => x.portfolioId == pid && x.symbol == sym)).length ≤ 1
            rw [@length_filter_replace s h (sellUpdated h it.quantity) hnd
              (mem_holdings_of_head? hh).1 rfl rfl pid sym]
            exact hu pid sym
      | none =>
          have hnil : holdingsFor s it.portfolioId it.symbol = [] := by simpa using hh
          rw [createTransaction_sell_missing s it ⟨hnd, hbh, hbt⟩ hsell hnil]
          exact hu pid sym
    · rw [createTransaction_other s it ⟨hnd, hbh, hbt⟩ hb hsell]
      exact hu pid sym

/-- Invariant preservation along any sequence of `createTransaction`
calls. -/
theorem applyTransactions_inv :
    ∀ (l : List InsertTransaction) (s : MemStorage), WF s → UniqueHoldings s →
      WF (applyTransactions s l) ∧ UniqueHoldings (applyTransactions s l) := by
  intro l
  induction l with
  | nil => intro s hwf hu; exact ⟨hwf, hu⟩
  | cons it rest ih =>
    intro s hwf hu
    exact ih (createTransaction s it).1 (WF_createTransaction s it hwf)
      (unique_createTransaction s it hwf hu)

/-- A `buy` on a pair whose holdings list is exactly `[h]` leaves exactly the
weighted-average update of `h` for that pair. -/
theorem holdingsFor_buy_existing (s : MemStorage) (it : InsertTransaction)
    (h : Holding) (hwf : WF s) (hty : it.type = TxType.buy)
    (hone : holdingsFor s it.portfolioId it.symbol = [h]) :
    holdingsFor (createTransaction s it).1 it.portfolioId it.symbol =
      [buyUpdated h it.quantity it.price] := by
  have hfound : (holdingsFor s it.portfolioId it.symbol).head? = some h := by
    rw [hone]; rfl
  have hq : (fun x : Holding =>
      x.portfolioId == it.portfolioId && x.symbol == it.symbol) h = true := by
    have : h ∈ holdingsFor s it.portfolioId it.symbol := by
      rw [hone]; exact List.mem_singleton_self h
    exact (List.mem_filter.mp this).2
  rw [createTransaction_buy_existing s it h hwf hty hfound]
  show (s.holdings.map
      (fun x => if x.id == h.id then buyUpdated h it.quantity it.price else x)).filter
        (fun x => x.portfolioId == it.portfolioId && x.symbol == it.symbol) = _
  exact filter_replace_singleton s.holdings _ h
    (buyUpdated h it.quantity it.price) hwf.1 hone hq rfl

/-- A `buy` on a pair with no holding leaves exactly the freshly created
holding for that pair. -/
theorem holdingsFor_buy_fresh (s : MemStorage) (it : InsertTransaction)
    (hwf : WF s) (hty : it.type = TxType.buy)
    (hnil : holdingsFor s it.portfolioId it.symbol = []) :
    holdingsFor (createTransaction s it).1 it.portfolioId it.symbol =
      [freshBuyHolding (s.nextId + 1) it] := by
  rw [createTransaction_buy_fresh s it hwf hty hnil]
  show (s.holdings ++ [freshBuyHolding (s.nextId + 1) it]).filter
      (fun x => x.portfolioId == it.portfolioId && x.symbol == it.symbol) = _
  rw [List.filter_append, List.filter_cons, List.filter_nil]
  rw [show (s.holdings.filter
      (fun x => x.portfolioId == it.portfolioId && x.symbol == it.symbol)) = [] from hnil]
  rw [if_pos (by simp [freshBuyHolding])]
  rfl

/-- A `sell` on a pair whose holdings list is exactly `[h]`, with
`h.quantity − it.quantity ≤ 0`, leaves no holding for that pair. -/
theorem holdingsFor_sell_delete (s : MemStorage) (it : InsertTransaction)
    (h : Holding) (hwf : WF s) (hty : it.type = TxType.sell)
    (hone : holdingsFor s it.portfolioId it.symbol = [h])
    (hle : h.quantity - it.quantity ≤ 0) :
    holdingsFor (createTransaction s it).1 it.portfolioId it.symbol = [] := by
  have hfound : (holdingsFor s it.portfolioId it.symbol).head? = some h := by
    rw [hone]; rfl
  rw [createTransaction_sell_delete s it h hwf hty hfound hle]
  show (s.holdings.filter (fun x => !(x.id == h.id))).filter
      (fun x => x.portfolioId == it.portfolioId && x.symbol == it.symbol) = []
  rw [List.filter_filter, List.filter_eq_nil_iff]
  intro a ha hc
  have hmatch := (Bool.and_eq_true _ _).mp hc
  have haq : a ∈ s.holdings.filter
      (fun x => x.portfolioId == it.portfolioId && x.symbol == it.symbol) :=
    List.mem_filter.mpr ⟨ha, hmatch.1⟩
  have : a = h := by
    have : a ∈ [h] := hone ▸ haq
    simpa using this
  subst this
  simp at hmatch

/-- A `sell` on a pair whose holdings list is exactly `[h]`, with a positive
remaining quantity, leaves exactly the quantity-decremented `h`. -/
theorem holdingsFor_sell_update (s : MemStorage) (it : InsertTransaction)
    (h : Holding) (hwf : WF s) (hty : it.type = TxType.sell)
    (hone : holdingsFor s it.portfolioId it.symbol = [h])
    (hgt : ¬(h.quantity - it.quantity ≤ 0)) :
    holdingsFor (createTransaction s it).1 it.portfolioId it.symbol =
      [sellUpdated h it.quantity] := by
  have hfound : (holdingsFor s it.portfolioId it.symbol).head? = some h := by
    rw [hone]; rfl
  have hq : (fun x : Holding =>
      x.portfolioId == it.portfolioId && x.symbol == it.symbol) h = true := by
    have : h ∈ holdingsFor s it.portfolioId it.symbol := by
      rw [hone]; exact List.mem_singleton_self h
    exact (List.mem_filter.mp this).2
  rw [createTransaction_sell_update s it h hwf hty hfound hgt]
  show (s.holdings.map
      (fun x => if x.id == h.id then sellUpdated h it.quantity else x)).filter
        (fun x => x.portfolioId == it.portfolioId && x.symbol == it.symbol) = _
  exact filter_replace_singleton s.holdings _ h (sellUpdated h it.quantity) hwf.1 hone hq rfl

/-- If the transaction's quantity is positive and every stored holding has a
positive quantity, every holding after `createTransaction` still has a
positive quantity.  No id discipline is needed: every branch either keeps a
stored holding, or stores a holding whose quantity is `existing + q`,
`existing − q > 0`, or `q`. -/
theorem quantity_pos_uhft (s : MemStorage) (t : Transaction)
    (hpos : ∀ x ∈ s.holdings, 0 < x.quantity) (hq : 0 < t.quantity) :
    ∀ x ∈ (updateHoldingFromTransaction s t).holdings, 0 < x.quantity := by
  intro x hx
  simp only [updateHoldingFromTransaction] at hx
  split at hx
  · -- buy
    rcases hh : (holdingsFor s t.portfolioId t.symbol).head? with _ | h0
    · rw [hh] at hx
      simp only [createHolding] at hx
      rcases mem_setHoldingById hx with rfl | hxs
      · exact hq
      · exact hpos x hxs
    · rw [hh] at hx
      have h0mem : h0 ∈ s.holdings := (mem_holdings_of_head? hh).1
      simp only [updateHolding] at hx
      rcases hf : s.holdings.find? (fun y => y.id == h0.id) with _ | h1
      · rw [hf] at hx
        exact hpos x hx
      · rw [hf] at hx
        rcases mem_setHoldingById hx with rfl | hxs
        · show 0 < h0.quantity + t.quantity
          have := hpos h0 h0mem
          linarith
        · exact hpos x hxs
  · split at hx
    · -- sell
      rcases hh : (holdingsFor s t.portfolioId t.symbol).head? with _ | h0
      · rw [hh] at hx
        exact hpos x hx
      · rw [hh] at hx
        simp only [deleteHolding, updateHolding] at hx
        split at hx
        · -- delete
          exact hpos x (List.mem_of_mem_filter hx)
        · -- update
          next hgt =>
            rcases hf : s.holdings.find? (fun y => y.id == h0.id) with _ | h1
            · rw [hf] at hx
              exact hpos x hx
            · rw [hf] at hx
              rcases mem_setHoldingById hx with rfl | hxs
              · show 0 < h0.quantity - t.quantity
                exact lt_of_not_le hgt
              · exact hpos x hxs
    · exact hpos x hx

theorem quantity_pos_createTransaction (s : MemStorage) (it : InsertTransaction)
    (hpos : ∀ x ∈ s.holdings, 0 < x.quantity) (hq : 0 < it.quantity) :
    ∀ x ∈ (createTransaction s it).1.holdings, 0 < x.quantity := by
  intro x hx
  exact quantity_pos_uhft
    { s with transactions := setTransactionById s.transactions (newTransaction s.nextId it)
             nextId := s.nextId + 1 }
    (newTransaction s.nextId it) hpos hq x hx

/-- Folding a list of positive buys over a state holding exactly `[h]` for
the pair keeps exactly one holding, whose quantity accumulates the buys and
whose cost basis (`averageCost × quantity`) accumulates `quantity × price`
of each buy. -/
theorem buys_fold_existing :
    ∀ (l : List InsertTransaction) (s : MemStorage) (pid sym : String) (h : Holding),
      WF s → holdingsFor s pid sym = [h] → 0 < h.quantity →
      (∀ it ∈ l, it.type = TxType.buy ∧ it.portfolioId = pid ∧ it.symbol = sym ∧
        0 < it.quantity) →
      ∃ h', holdingsFor (applyTransactions s l) pid sym = [h'] ∧
        WF (applyTransactions s l) ∧ 0 < h'.quantity ∧
        h'.quantity = h.quantity + (l.map InsertTransaction.quantity).sum ∧
        h'.averageCost * h'.quantity =
          h.averageCost * h.quantity +
            (l.map (fun it => it.quantity * it.price)).sum := by
  intro l
  induction l with
  | nil =>
    intro s pid sym h hwf hone hpos _
    exact ⟨h, hone, hwf, hpos, by simp, by simp⟩
  | cons it rest ih =>
    intro s pid sym h hwf hone hpos hbuys
    obtain ⟨hty, hpid, hsym, hq⟩ := hbuys it (List.mem_cons_self it rest)
    have hone' : holdingsFor s it.portfolioId it.symbol = [h] := by
      rw [hpid, hsym]; exact hone
    have hstep := holdingsFor_buy_existing s it h hwf hty hone'
    have hwf1 := WF_createTransaction s it hwf
    have hone1 : holdingsFor (createTransaction s it).1 pid sym =
        [buyUpdated h it.quantity it.price] := by
      rw [← hpid, ← hsym]; exact hstep
    have hq1 : 0 < (buyUpdated h it.quantity it.price).quantity := by
      show 0 < h.quantity + it.quantity
      linarith
    obtain ⟨h', hfin, hwfin, hposfin, hqsum, hcsum⟩ :=
      ih (createTransaction s it).1 pid sym (buyUpdated h it.quantity it.price)
        hwf1 hone1 hq1 (fun x hx => hbuys x (List.mem_cons_of_mem it hx))
    have hbu_q : (buyUpdated h it.quantity it.price).quantity =
        h.quantity + it.quantity := rfl
    have hbu_c : (buyUpdated h it.quantity it.price).averageCost *
        (buyUpdated h it.quantity it.price).quantity =
        h.averageCost * h.quantity + it.quantity * it.price := by
      show (h.quantity * h.averageCost + it.quantity * it.price) /
          (h.quantity + it.quantity) * (h.quantity + it.quantity) = _
      rw [div_mul_cancel₀ _ (show h.quantity + it.quantity ≠ 0 from by positivity)]
      ring
    refine ⟨h', hfin, hwfin, hposfin, ?_, ?_⟩
    · rw [hqsum, hbu_q, List.map_cons, List.sum_cons]
      ring
    · rw [hcsum, hbu_c, List.map_cons, List.sum_cons]
      ring

end MemStorage

open MemStorage

/-- Claim C1: applying a sequence of buy transactions with positive
quantities through `createTransaction` to a fresh `(portfolioId, symbol)`
yields one holding whose quantity is the sum of the transacted quantities
and whose `averageCost` is the quantity-weighted mean of the prices;
moreover the first buy creates the holding with `quantity = txn_quantity`,
`averageCost = txn_price`, and each buy on an existing holding applies
`new_quantity = existing + q`,
`new_average_cost = (existing_q × existing_cost + q × p) / new_quantity`. -/
theorem c1_buy_sequence_weighted_average (s : MemStorage) (pid sym : String)
    (l : List InsertTransaction) (hwf : WF s)
    (hfresh : holdingsFor s pid sym = []) (hne : l ≠ [])
    (hbuys : ∀ it ∈ l, it.type = TxType.buy ∧ it.portfolioId = pid ∧
      it.symbol = sym ∧ 0 < it.quantity) :
    (∃ h, holdingsFor (applyTransactions s l) pid sym = [h] ∧
       h.quantity = (l.map InsertTransaction.quantity).sum ∧
       h.averageCost = (l.map (fun it => it.quantity * it.price)).sum /
         (l.map InsertTransaction.quantity).sum) ∧
    (∀ (s' : MemStorage) (it : InsertTransaction), WF s' → it.type = TxType.buy →
       holdingsFor s' it.portfolioId it.symbol = [] → 0 < it.quantity →
       ∃ h0, holdingsFor (createTransaction s' it).1 it.portfolioId it.symbol = [h0] ∧
         h0.quantity = it.quantity ∧ h0.averageCost = it.price) ∧
    (∀ (s' : MemStorage) (it : InsertTransaction) (h : Holding), WF s' →
       it.type = TxType.buy → holdingsFor s' it.portfolioId it.symbol = [h] →
       ∃ h', holdingsFor (createTransaction s' it).1 it.portfolioId it.symbol = [h'] ∧
         h'.quantity = h.quantity + it.quantity ∧
         h'.averageCost = (h.quantity * h.averageCost + it.quantity * it.price) /
           (h.quantity + it.quantity)) := by
  refine ⟨?_, ?_, ?_⟩
  · -- the whole sequence on a fresh pair
    cases l with
    | nil => exact absurd rfl hne
    | cons it0 rest =>
      obtain ⟨hty0, hpid0, hsym0, hq0⟩ := hbuys it0 (List.mem_cons_self it0 rest)
      have hfresh' : holdingsFor s it0.portfolioId it0.symbol = [] := by
        rw [hpid0, hsym0]; exact hfresh
      have hstep := holdingsFor_buy_fresh s it0 hwf hty0 hfresh'
      have hone1 : holdingsFor (createTransaction s it0).1 pid sym =
          [freshBuyHolding (s.nextId + 1) it0] := by
        rw [← hpid0, ← hsym0]; exact hstep
      have hwf1 := WF_createTransaction s it0 hwf
      obtain ⟨h', hfin, _, hposfin, hqsum, hcsum⟩ :=
        buys_fold_existing rest (createTransaction s it0).1 pid sym
          (freshBuyHolding (s.nextId + 1) it0) hwf1 hone1 hq0
          (fun x hx => hbuys x (List.mem_cons_of_mem it0 hx))
      have hq' : h'.quantity = ((it0 :: rest).map InsertTransaction.quantity).sum := by
        rw [hqsum, List.map_cons, List.sum_cons]
        rfl
      refine ⟨h', hfin, hq', ?_⟩
      have hc' : h'.averageCost * h'.quantity =
          ((it0 :: rest).map (fun it => it.quantity * it.price)).sum := by
        rw [hcsum, List.map_cons, List.sum_cons]
        show it0.price * it0.quantity + _ = it0.quantity * it0.price + _
        ring
      have hqn : h'.quantity ≠ 0 := ne_of_gt hposfin
      rw [← hq', ← hc']
      rw [eq_div_iff hqn]
  · intro s' it hwf' hty hfr hq
    refine ⟨freshBuyHolding (s'.nextId + 1) it,
      holdingsFor_buy_fresh s' it hwf' hty hfr, rfl, rfl⟩
  · intro s' it h hwf' hty hone
    exact ⟨buyUpdated h it.quantity it.price,
      holdingsFor_buy_existing s' it h hwf' hty hone, rfl, rfl⟩

/-- Witness for C1 at the spec's own scenario: the two buys yield one AAPL
holding with quantity 75 and average cost 160. -/
theorem c1_witness :
    (WF emptyStore ∧ holdingsFor emptyStore "P" "AAPL" = [] ∧ c1Buys ≠ [] ∧
      (∀ it ∈ c1Buys, it.type = TxType.buy ∧ it.portfolioId = "P" ∧
        it.symbol = "AAPL" ∧ 0 < it.quantity)) ∧
    (∃ h, holdingsFor (applyTransactions emptyStore c1Buys) "P" "AAPL" = [h] ∧
      h.quantity = 75 ∧ h.averageCost = 160) := by
  have hwf : WF emptyStore := ⟨by decide, by decide, by decide⟩
  have hfr : holdingsFor emptyStore "P" "AAPL" = [] := rfl
  have hne : c1Buys ≠ [] := by simp [c1Buys]
  have hb : ∀ it ∈ c1Buys, it.type = TxType.buy ∧ it.portfolioId = "P" ∧
      it.symbol = "AAPL" ∧ 0 < it.quantity := by norm_num [c1Buys]
  obtain ⟨⟨h, hf, hq, hc⟩, -, -⟩ :=
    c1_buy_sequence_weighted_average emptyStore "P" "AAPL" c1Buys hwf hfr hne hb
  exact ⟨⟨hwf, hfr, hne, hb⟩, h, hf, hq.trans (by norm_num [c1Buys]),
    hc.trans (by norm_num [c1Buys])⟩

/-- Claim C2 (amended): if the transacted quantity is positive and every
holding of the pre-state has positive quantity, then immediately after
`createTransaction` returns every holding in the store has quantity > 0,
so no holding with quantity ≤ 0 remains. -/
theorem c2_positive_quantity_invariant (s : MemStorage) (it : InsertTransaction)
    (hpos : ∀ x ∈ s.holdings, 0 < x.quantity) (hq : 0 < it.quantity) :
    ∀ x ∈ (createTransaction s it).1.holdings, 0 < x.quantity :=
  quantity_pos_createTransaction s it hpos hq

/-- Counterexample to C2 as stated: a buy with quantity −5 on an empty
store leaves a holding with quantity ≤ 0 in the store. -/
theorem c2_counterexample :
    ∃ x ∈ (createTransaction emptyStore
      ⟨"P", "AAPL", TxType.buy, -5, 100, -500, some 0, "USD", "NASDAQ"⟩).1.holdings,
      x.quantity ≤ 0 := by
  norm_num [createTransaction, updateHoldingFromTransaction, holdingsFor,
    emptyStore, newTransaction, setTransactionById, createHolding, setHoldingById]

/-- Witness for C2 at a concrete input: buying 25 AAPL into a store holding
50 AAPL keeps every quantity positive. -/
theorem c2_witness :
    ((∀ x ∈ oneHoldingStore.holdings, 0 < x.quantity) ∧ (0 : ℚ) < 25) ∧
    (∀ x ∈ (createTransaction oneHoldingStore
        ⟨"P", "AAPL", TxType.buy, 25, 180, 4500, some 0, "USD", "NASDAQ"⟩).1.holdings,
      0 < x.quantity) := by
  have h1 : ∀ x ∈ oneHoldingStore.holdings, 0 < x.quantity := by
    norm_num [oneHoldingStore]
  have h2 : (0 : ℚ) < 25 := by norm_num
  exact ⟨⟨h1, h2⟩, c2_positive_quantity_invariant oneHoldingStore _ h1 h2⟩

/-- Claim C3 (code behavior at the failing input): `createTransaction`
accepts a buy with negative quantity without any error, appends it to the
ledger and creates a holding — there is no `InvalidTransaction` rejection
path anywhere in the function. -/
theorem c3_code_accepts_nonpositive_buy :
    ((createTransaction emptyStore
      ⟨"P", "AAPL", TxType.buy, -5, 100, -500, some 0, "USD", "NASDAQ"⟩).1.transactions.length = 1) ∧
    ((createTransaction emptyStore
      ⟨"P", "AAPL", TxType.buy, -5, 100, -500, some 0, "USD", "NASDAQ"⟩).1.holdings.length = 1) ∧
    ((createTransaction emptyStore
      ⟨"P", "AAPL", TxType.buy, -5, 100, -500, some 0, "USD", "NASDAQ"⟩).2.quantity = -5) := by
  norm_num [createTransaction, updateHoldingFromTransaction, holdingsFor,
    emptyStore, newTransaction, setTransactionById, createHolding, setHoldingById]

/-- Counterexample to C4 as stated: two `createHolding` calls with the same
`(portfolioId, symbol)` leave two holdings for the pair. -/
theorem c4_counterexample :
    (holdingsFor (createHolding (createHolding emptyStore dupHolding).1 dupHolding).1
      "P" "AAPL").length = 2 := by
  norm_num [createHolding, setHoldingById, holdingsFor, emptyStore, dupHolding]

/-- Claim C4 (amended): any sequence of `createTransaction` calls preserves
the at-most-one-holding-per-`(portfolioId, symbol)` invariant, starting from
a state that satisfies it and whose ids are well formed; `createHolding`
does not preserve it. -/
theorem c4_unique_holdings_via_transactions (s : MemStorage)
    (l : List InsertTransaction) (hwf : WF s) (hu : UniqueHoldings s) :
    UniqueHoldings (applyTransactions s l) :=
  (applyTransactions_inv l s hwf hu).2

/-- Witness for C4: the two-buy sequence from the empty store keeps at most
one holding per pair. -/
theorem c4_witness :
    (WF emptyStore ∧ UniqueHoldings emptyStore) ∧
    UniqueHoldings (applyTransactions emptyStore c1Buys) := by
  have hwf : WF emptyStore := ⟨by decide, by decide, by decide⟩
  have hu : UniqueHoldings emptyStore := by
    intro pid sym
    simp [holdingsFor, emptyStore]
  exact ⟨⟨hwf, hu⟩, c4_unique_holdings_via_transactions emptyStore c1Buys hwf hu⟩

/-- Claim C5: a sell on an existing holding whose resulting quantity is ≤ 0
removes the holding entirely (no holding remains for the pair), and the
operation completes normally with the transaction appended to the ledger —
the source has no error path. -/
theorem c5_oversell_closes_position (s : MemStorage) (it : InsertTransaction)
    (h : Holding) (hwf : WF s) (hty : it.type = TxType.sell)
    (hone : holdingsFor s it.portfolioId it.symbol = [h])
    (hle : h.quantity - it.quantity ≤ 0) :
    holdingsFor (createTransaction s it).1 it.portfolioId it.symbol = [] ∧
    (createTransaction s it).1.holdings = s.holdings.filter (fun x => !(x.id == h.id)) ∧
    (createTransaction s it).1.transactions =
      s.transactions ++ [(createTransaction s it).2] := by
  have hfound : (holdingsFor s it.portfolioId it.symbol).head? = some h := by
    rw [hone]; rfl
  have hmain := createTransaction_sell_delete s it h hwf hty hfound hle
  refine ⟨holdingsFor_sell_delete s it h hwf hty hone hle, ?_, ?_⟩
  · rw [hmain]
  · rw [hmain]
    rfl

/-- Witness for C5 at the spec's scenario: holding 50 @ 150, sell 50 —
the holding is removed from the holdings set entirely. -/
theorem c5_witness :
    (WF oneHoldingStore ∧
      (⟨"P", "AAPL", TxType.sell, 50, 200, 10000, some 0, "USD", "NASDAQ"⟩ :
        InsertTransaction).type = TxType.sell ∧
      holdingsFor oneHoldingStore "P" "AAPL" =
        [⟨0, "P", "AAPL", "Apple Inc.", "NASDAQ", "USD", 50, 150, none⟩] ∧
      (⟨0, "P", "AAPL", "Apple Inc.", "NASDAQ", "USD", 50, 150, none⟩ :
        Holding).quantity - 50 ≤ 0) ∧
    (holdingsFor (createTransaction oneHoldingStore
      ⟨"P", "AAPL", TxType.sell, 50, 200, 10000, some 0, "USD", "NASDAQ"⟩).1
        "P" "AAPL" = [] ∧
      (createTransaction oneHoldingStore
        ⟨"P", "AAPL", TxType.sell, 50, 200, 10000, some 0, "USD", "NASDAQ"⟩).1.holdings = []) := by
  have hwf : WF oneHoldingStore := ⟨by decide, by decide, by decide⟩
  have hone : holdingsFor oneHoldingStore "P" "AAPL" =
      [⟨0, "P", "AAPL", "Apple Inc.", "NASDAQ", "USD", 50, 150, none⟩] := by
    norm_num [holdingsFor, oneHoldingStore]
  have hle : (⟨0, "P", "AAPL", "Apple Inc.", "NASDAQ", "USD", 50, 150, none⟩ :
      Holding).quantity - 50 ≤ 0 := by norm_num
  obtain ⟨hempty, hallh, -⟩ := c5_oversell_closes_position oneHoldingStore
    ⟨"P", "AAPL", TxType.sell, 50, 200, 10000, some 0, "USD", "NASDAQ"⟩
    ⟨0, "P", "AAPL", "Apple Inc.", "NASDAQ", "USD", 50, 150, none⟩
    hwf rfl hone hle
  exact ⟨⟨hwf, rfl, hone, hle⟩, hempty, hallh.trans (by norm_num [oneHoldingStore])⟩

/-- Claim C6: a sell with positive remaining quantity updates only the
holding's quantity; id, portfolioId, symbol, companyName, exchange,
currency, averageCost and currentPrice are all unchanged. -/
theorem c6_sell_updates_only_quantity (s : MemStorage) (it : InsertTransaction)
    (h : Holding) (hwf : WF s) (hty : it.type = TxType.sell)
    (hone : holdingsFor s it.portfolioId it.symbol = [h])
    (hgt : 0 < h.quantity - it.quantity) :
    holdingsFor (createTransaction s it).1 it.portfolioId it.symbol =
      [{ id := h.id
         portfolioId := h.portfolioId
         symbol := h.symbol
         companyName := h.companyName
         exchange := h.exchange
         currency := h.currency
         quantity := h.quantity - it.quantity
         averageCost := h.averageCost
         currentPrice := h.currentPrice }] :=
  holdingsFor_sell_update s it h hwf hty hone (not_le.mpr hgt)

/-- Witness for C6: selling 20 of the 50-share holding leaves quantity 30
with every other field unchanged. -/
theorem c6_witness :
    (WF oneHoldingStore ∧
      holdingsFor oneHoldingStore "P" "AAPL" =
        [⟨0, "P", "AAPL", "Apple Inc.", "NASDAQ", "USD", 50, 150, none⟩] ∧
      (0 : ℚ) < (⟨0, "P", "AAPL", "Apple Inc.", "NASDAQ", "USD", 50, 150, none⟩ :
        Holding).quantity - 20) ∧
    holdingsFor (createTransaction oneHoldingStore
      ⟨"P", "AAPL", TxType.sell, 20, 200, 4000, some 0, "USD", "NASDAQ"⟩).1
        "P" "AAPL" =
      [⟨0, "P", "AAPL", "Apple Inc.", "NASDAQ", "USD", 30, 150, none⟩] := by
  have hwf : WF oneHoldingStore := ⟨by decide, by decide, by decide⟩
  have hone : holdingsFor oneHoldingStore "P" "AAPL" =
      [⟨0, "P", "AAPL", "Apple Inc.", "NASDAQ", "USD", 50, 150, none⟩] := by
    norm_num [holdingsFor, oneHoldingStore]
  have hgt : (0 : ℚ) < (⟨0, "P", "AAPL", "Apple Inc.", "NASDAQ", "USD", 50, 150, none⟩ :
      Holding).quantity - 20 := by norm_num
  have := c6_sell_updates_only_quantity oneHoldingStore
    ⟨"P", "AAPL", TxType.sell, 20, 200, 4000, some 0, "USD", "NASDAQ"⟩
    ⟨0, "P", "AAPL", "Apple Inc.", "NASDAQ", "USD", 50, 150, none⟩
    hwf rfl hone hgt
  exact ⟨⟨hwf, hone, hgt⟩, this.trans (by norm_num)⟩

/-- Claim C10: a sell referencing a pair with no existing holding still
appends the transaction to the ledger, returns it with the submitted
fields, raises no error, and leaves the holdings store unchanged. -/
theorem c10_sell_without_holding (s : MemStorage) (it : InsertTransaction)
    (hwf : WF s) (hty : it.type = TxType.sell)
    (hfresh : holdingsFor s it.portfolioId it.symbol = []) :
    (createTransaction s it).1.holdings = s.holdings ∧
    (createTransaction s it).1.transactions =
      s.transactions ++ [(createTransaction s it).2] ∧
    (createTransaction s it).2.portfolioId = it.portfolioId ∧
    (createTransaction s it).2.symbol = it.symbol ∧
    (createTransaction s it).2.type = it.type ∧
    (createTransaction s it).2.quantity = it.quantity := by
  have hmain := createTransaction_sell_missing s it hwf hty hfresh
  refine ⟨?_, ?_, rfl, rfl, rfl, rfl⟩
  · rw [hmain]
  · rw [hmain]
    rfl

/-- Witness for C10: selling AAPL from the empty store records the
transaction and leaves the (empty) holdings untouched. -/
theorem c10_witness :
    (WF emptyStore ∧ holdingsFor emptyStore "P" "AAPL" = []) ∧
    ((createTransaction emptyStore
      ⟨"P", "AAPL", TxType.sell, 10, 100, 1000, some 0, "USD", "NASDAQ"⟩).1.holdings =
        emptyStore.holdings ∧
     (createTransaction emptyStore
      ⟨"P", "AAPL", TxType.sell, 10, 100, 1000, some 0, "USD", "NASDAQ"⟩).1.transactions =
        emptyStore.transactions ++
          [(createTransaction emptyStore
            ⟨"P", "AAPL", TxType.sell, 10, 100, 1000, some 0, "USD", "NASDAQ"⟩).2]) := by
  have hwf : WF emptyStore := ⟨by decide, by decide, by decide⟩
  have hfr : holdingsFor emptyStore "P" "AAPL" = [] := rfl
  obtain ⟨hh, ht, -, -, -, -⟩ := c10_sell_without_holding emptyStore
    ⟨"P", "AAPL", TxType.sell, 10, 100, 1000, some 0, "USD", "NASDAQ"⟩ hwf rfl hfr
  exact ⟨⟨hwf, hfr⟩, hh, ht⟩

/-- Claim C7 (amended): `holdingMetrics` returns exactly the spec formulas —
currentValue = currentPrice × quantity, totalGain = currentValue − cost
basis, totalGainPercent = totalGain / cost basis × 100 when the cost basis
is positive and 0 when it is ≤ 0; an absent currentPrice behaves exactly
like currentPrice = 0; and every metrics record produced by
`getHoldingsWithMetrics` is `holdingMetrics` of its holding.  Everything is
total: no exception, and rational arithmetic has no NaN or infinity. -/
theorem c7_holding_metrics_formulas (h : Holding) :
    holdingMetrics h = holdingMetricsSpec h ∧
    holdingMetrics { h with currentPrice := none } =
      holdingMetrics { h with currentPrice := some 0 } ∧
    (∀ (s : MemStorage) (pid : String) (x : Holding) (m : HoldingMetrics),
      (x, m) ∈ getHoldingsWithMetrics s pid → m = holdingMetrics x) := by
  refine ⟨rfl, rfl, ?_⟩
  intro s pid x m hmem
  rcases List.mem_map.mp hmem with ⟨y, hy, heq⟩
  injection heq with h1 h2
  subst h1
  exact h2.symm

/-- Counterexample to C7 as stated: on a holding with negative cost basis
(quantity −5 at averageCost 10, currentPrice 1) the code returns
totalGainPercent = 0, while the claim's formula yields −90 ≠ 0. -/
theorem c7_counterexample :
    (holdingMetrics ⟨0, "P", "A", "A", "N", "USD", -5, 10, some 1⟩).totalGainPercent = 0 ∧
    (⟨0, "P", "A", "A", "N", "USD", -5, 10, some 1⟩ : Holding).averageCost *
      (⟨0, "P", "A", "A", "N", "USD", -5, 10, some 1⟩ : Holding).quantity ≠ 0 ∧
    (holdingMetrics ⟨0, "P", "A", "A", "N", "USD", -5, 10, some 1⟩).totalGain /
      ((⟨0, "P", "A", "A", "N", "USD", -5, 10, some 1⟩ : Holding).averageCost *
        (⟨0, "P", "A", "A", "N", "USD", -5, 10, some 1⟩ : Holding).quantity) * 100 = -90 := by
  norm_num [holdingMetrics]

/-- Folding addition of `f` over a list is the initial value plus the sum of
the mapped list. -/
theorem foldl_add_map {α : Type} (f : α → ℚ) :
    ∀ (l : List α) (a : ℚ), l.foldl (fun acc x => acc + f x) a = a + (l.map f).sum := by
  intro l
  induction l with
  | nil => intro a; simp
  | cons x tl ih =>
    intro a
    rw [List.foldl_cons, ih, List.map_cons, List.sum_cons]
    ring

/-- Claim C8 (amended): `getPortfolioWithMetrics` returns exactly the spec
formulas over the portfolio's holdings and transactions — totalValue and
cost as sums, totalGain as their difference, totalGainPercent guarded to 0
whenever the cost is not positive, dividendYield guarded to 0 whenever the
totalValue is not positive, holdingsCount the number of holdings — and on
an empty holdings list every metric is 0 with no division error. -/
theorem c8_portfolio_metrics_formulas (s : MemStorage) (pid : String)
    (ts : List Transaction) :
    getPortfolioWithMetrics s pid =
      (if s.portfolios.contains pid then
        some (portfolioMetricsSpec (s.holdings.filter (fun h => h.portfolioId == pid))
          (s.transactions.filter (fun t => t.portfolioId == pid)))
       else none) ∧
    portfolioMetricsSpec [] ts =
      { totalValue := 0, totalGain := 0, totalGainPercent := 0, dividendYield := 0,
        holdingsCount := 0 } := by
  constructor
  · unfold getPortfolioWithMetrics portfolioMetricsSpec
    split
    · simp only [foldl_add_map, zero_add]
    · rfl
  · norm_num [portfolioMetricsSpec]

/-- Counterexample to C8 as stated: with totalValue = −50 and 100 of
dividends, the code returns dividendYield 0, while the claim's formula
Σdividends / totalValue × 100 yields −200 ≠ 0. -/
theorem c8_counterexample :
    getPortfolioWithMetrics negStore "P" =
      some { totalValue := -50, totalGain := -50, totalGainPercent := 0,
             dividendYield := 0, holdingsCount := 1 } ∧
    (100 : ℚ) / (-50) * 100 ≠ 0 := by
  constructor
  · norm_num [getPortfolioWithMetrics, negStore]
  · norm_num
